import Mathlib

/-!
A formal model of the amplifier TUI-tester module: the key encoder
(keys.py) and the session lifecycle engine (session_manager.py).

OS interaction is modelled by environments that fix the outcome of every
OS call the code performs, and Python exception flow is modelled with
Except: a primitive that can raise returns an Except value, a Python
try/except handler is an explicit match on that value, and an operation
whose Lean result type is Except can itself propagate an uncaught error.
-/

/-- Kinds of OSError that the modelled OS calls can produce: no such
process (ESRCH), permission denied (EPERM), bad file handle (EBADF) and a
generic I/O failure.  A Python `except OSError` handler catches every one
of these, since PermissionError and ProcessLookupError are both
subclasses of OSError. -/
inductive OSErr
  | esrch
  | eperm
  | ebadf
  | eio
  deriving DecidableEq

/-- TUISession.is_alive (session_manager.py lines 40-46): runs
os.kill(self.pid, 0) and returns True, except OSError returns False.
`probeRes` is the outcome of that zero-signal probe: none means the
signal was delivered, some e means the call raised the OS error e.
The except clause catches every OSErr, not only esrch. -/
def is_alive (probeRes : Option OSErr) : Bool :=
  match probeRes with
  | none => true
  | some _ => false

/-- Outcomes of every OS call made by TUISession.close (lines 225-248).
`closeRes` is the outcome of os.close on the still-open pty handle,
`probeRes n` the outcome of the n-th os.kill(pid, 0) liveness probe
(probe 0 is the is_alive check, probes 1..10 the in-loop polls),
`termRes` the outcome of os.kill(pid, SIGTERM) and `killRes` the outcome
of os.kill(pid, SIGKILL). -/
structure CloseEnv where
  closeRes : Option OSErr
  probeRes : Nat → Option OSErr
  termRes : Option OSErr
  killRes : Option OSErr

/-- What a completed close() run did: whether the pty handle is still
held open afterwards, whether the os.close syscall succeeded (the one
actual release of the handle), whether SIGTERM was delivered, and
whether the forced SIGKILL branch was reached. -/
structure CloseResult where
  fdOpen : Bool
  fdCloseOk : Bool
  sigtermSent : Bool
  sigkillSent : Bool
  deriving DecidableEq

/-- os.close(self.fd): succeeds (releasing the handle) or raises
`closeRes` when the handle is open; raises EBADF when the handle was
already closed by an earlier call. -/
def osCloseFd (env : CloseEnv) (fdOpen : Bool) : Except OSErr Unit :=
  if fdOpen then
    match env.closeRes with
    | none => Except.ok ()
    | some e => Except.error e
  else Except.error OSErr.ebadf

/-- Number of liveness polls in close() after SIGTERM: `for _ in range(10)`. -/
def closePollBudget : Nat := 10

/-- Sleep between those polls: `time.sleep(0.1)`, i.e. 100 ms. -/
def closePollIntervalMs : Nat := 100

/-- The graceful-shutdown poll loop of close(): probe k, k+1, ... while
budget remains.  A successful os.kill(pid, 0) means the process still
exists, so the loop sleeps and continues; an OSError breaks out of the
loop.  Returns true exactly when the loop ran through its whole budget
without a break, which is the Python for-else condition under which
SIGKILL is issued. -/
def termPoll (env : CloseEnv) : Nat → Nat → Bool
  | _, 0 => true
  | k, r + 1 =>
    match env.probeRes k with
    | none => termPoll env (k + 1) r
    | some _ => false

/-- The first statement of close(): `try: os.close(self.fd) except
OSError: pass`.  True when the os.close syscall succeeded (that is,
the handle was actually released by this call); the raised error of a
failed call is swallowed by the handler. -/
def fdCloseFlag (env : CloseEnv) (fdOpen : Bool) : Bool :=
  match osCloseFd env fdOpen with
  | Except.ok _ => true
  | Except.error _ => false

/-- TUISession.close (session_manager.py lines 225-248), as an Except
computation so that an uncaught OS error would surface as Except.error.

First `try: os.close(self.fd) except OSError: pass` (fdCloseFlag), then
`if self.is_alive():` (probe 0), then one `try ... except OSError:
pass` wrapping os.kill(pid, SIGTERM), the 10-poll loop, and the
for-else os.kill(pid, SIGKILL) — so a SIGTERM failure skips the polls,
and a SIGKILL failure is swallowed too.  `fdOpen` is whether this
session still holds its pty handle open on entry; after any close()
call the handle is no longer held. -/
def TUISession.close (env : CloseEnv) (fdOpen : Bool) : Except OSErr CloseResult :=
  if is_alive (env.probeRes 0) then
    match env.termRes with
    | some _ =>
      Except.ok { fdOpen := false, fdCloseOk := fdCloseFlag env fdOpen, sigtermSent := false, sigkillSent := false }
    | none =>
      if termPoll env 1 closePollBudget then
        Except.ok { fdOpen := false, fdCloseOk := fdCloseFlag env fdOpen, sigtermSent := true, sigkillSent := true }
      else
        Except.ok { fdOpen := false, fdCloseOk := fdCloseFlag env fdOpen, sigtermSent := true, sigkillSent := false }
  else
    Except.ok { fdOpen := false, fdCloseOk := fdCloseFlag env fdOpen, sigtermSent := false, sigkillSent := false }

/-- Outcomes of the OS calls made by TUISession._read_output:
`ready n` is whether select.select reported the pty handle readable on
the n-th loop iteration, and `readRes n` the outcome of os.read(fd,
8192) on that iteration (a byte chunk, or an OS error). -/
structure ReadEnv where
  ready : Nat → Bool
  readRes : Nat → Except OSErr (List Nat)

/-- Chunk size requested from os.read in _read_output. -/
def READ_CHUNK : Nat := 8192

/-- Default iteration cap of _read_output (`max_reads: int = 100`). -/
def READ_MAX_DEFAULT : Nat := 100

/-- The while-loop of TUISession._read_output (lines 56-83).  `n` is the
number of iterations already performed (the `reads` counter), the second
argument the remaining budget `max_reads - reads`.  Each pass increments
the counter, polls readability, then reads a chunk: a select timeout, an
OS error from the read, or an empty chunk breaks the loop; otherwise the
chunk is appended (and fed to the pyte stream, which is outside this
model) and the loop continues.  Returns the accumulated bytes and the
total number of iterations performed. -/
def readLoop (env : ReadEnv) : Nat → Nat → List Nat × Nat
  | n, 0 => ([], n)
  | n, r + 1 =>
    if env.ready n then
      match env.readRes n with
      | Except.error _ => ([], n + 1)
      | Except.ok chunk =>
        if chunk = [] then ([], n + 1)
        else
          (chunk ++ (readLoop env (n + 1) r).1, (readLoop env (n + 1) r).2)
    else ([], n + 1)

/-- TUISession._read_output with an explicit iteration cap (the Python
default is READ_MAX_DEFAULT = 100). -/
def TUISession.read_output (env : ReadEnv) (maxReads : Nat) : List Nat × Nat :=
  readLoop env 0 maxReads

/-- The only failure modelled inside capture(): the external image
renderer (_render_image / PIL) raising. -/
inductive CaptureErr
  | renderFailed
  deriving DecidableEq

/-- Python f-string formatting `{n:04d}`: decimal digits left-padded
with zeros to at least four characters. -/
def pad4 (n : Nat) : String :=
  let s := toString n
  if s.length < 4 then String.mk (List.replicate (4 - s.length) '0' ++ s.data) else s

/-- The counter-and-filename core of TUISession.capture (lines 110-133).
The method first drains output and extracts the pyte screen text (both
outside this model), then increments self.capture_count, derives the
artifact path capture_<count:04d>.png inside the session directory, and
only then calls _render_image, which can raise.  `renderOk` is whether
that render succeeds.  Result: the capture outcome (artifact file name,
or the propagated render failure) paired with the capture_count value
after the call — the counter is mutated before rendering, so it is
already incremented when a render failure propagates. -/
def TUISession.capture (renderOk : Bool) (captureCount : Nat) : Except CaptureErr String × Nat :=
  let newCount := captureCount + 1
  let imagePath := "capture_" ++ pad4 newCount ++ ".png"
  ((if renderOk then Except.ok imagePath else Except.error CaptureErr.renderFailed), newCount)

/-- The SessionManager._sessions dict, abstracted to its association
list of entries.  The Bool attached to an id is the outcome of that
session's is_alive() probe (true = os.kill(pid, 0) succeeded), which is
what cleanup_dead consults; dict keys are unique by construction, which
theorems take as a Nodup hypothesis. -/
def Registry : Type := List (String × Bool)

/-- dict.pop(session_id, None): remove the binding of the given key, if
present, returning the removed value and the remaining map. -/
def popKey : List (String × Bool) → String → Option Bool × List (String × Bool)
  | [], _ => (none, [])
  | (k, v) :: t, sid =>
    if k = sid then (some v, t)
    else
      let x := popKey t sid
      (x.1, (k, v) :: x.2)

/-- SessionManager.get (lines 337-339): self._sessions.get(session_id). -/
def SessionManager.get (m : List (String × Bool)) (sid : String) : Option Bool :=
  m.lookup sid

/-- SessionManager.close (lines 341-351): pop the entry; if one was
present call its close() and return True, otherwise return False.
Result: (return value, remaining map, id of the session whose close()
was invoked, if any). -/
def SessionManager.close (m : List (String × Bool)) (sid : String) :
    Bool × List (String × Bool) × Option String :=
  match popKey m sid with
  | (some _, m') => (true, m', some sid)
  | (none, m') => (false, m', none)

/-- The `for sid in dead: await self.close(sid)` loop of cleanup_dead:
close each listed id in order, collecting the ids whose session close()
actually ran. -/
def closeDead : List (String × Bool) → List String → List (String × Bool) × List String
  | m, [] => (m, [])
  | m, sid :: rest =>
    let x := SessionManager.close m sid
    let y := closeDead x.2.1 rest
    (y.1,
      match x.2.2 with
      | some s => s :: y.2
      | none => y.2)

/-- SessionManager.cleanup_dead (lines 357-366): first list the ids of
sessions whose is_alive() is false, then close each, then return
len(dead).  Result: (return value, remaining map, ids closed). -/
def SessionManager.cleanup_dead (m : List (String × Bool)) :
    Nat × List (String × Bool) × List String :=
  let dead := (m.filter (fun p => !p.2)).map Prod.fst
  let x := closeDead m dead
  (dead.length, x.1, x.2)

/-- UTF-8 encoding of one unicode scalar value, as str.encode("utf-8")
produces for each character. -/
def utf8Char (c : Char) : List Nat :=
  let n := c.toNat
  if n < 128 then [n]
  else if n < 2048 then [192 + n / 64, 128 + n % 64]
  else if n < 65536 then [224 + n / 4096, 128 + n / 64 % 64, 128 + n % 64]
  else [240 + n / 262144, 128 + n / 4096 % 64, 128 + n / 64 % 64, 128 + n % 64]

/-- UTF-8 encoding of a character sequence. -/
def utf8Chars : List Char → List Nat
  | [] => []
  | c :: r => utf8Char c ++ utf8Chars r

/-- UTF-8 encoding of a string (Python str.encode("utf-8")). -/
def utf8Str (s : String) : List Nat :=
  utf8Chars s.data

/-- Python str.upper() restricted to the ASCII range, which is all the
key table needs: lowercase ASCII letters map to their uppercase
counterparts, every other character is unchanged. -/
def pyUpper (c : Char) : Char :=
  match c with
  | 'a' => 'A'
  | 'b' => 'B'
  | 'c' => 'C'
  | 'd' => 'D'
  | 'e' => 'E'
  | 'f' => 'F'
  | 'g' => 'G'
  | 'h' => 'H'
  | 'i' => 'I'
  | 'j' => 'J'
  | 'k' => 'K'
  | 'l' => 'L'
  | 'm' => 'M'
  | 'n' => 'N'
  | 'o' => 'O'
  | 'p' => 'P'
  | 'q' => 'Q'
  | 'r' => 'R'
  | 's' => 'S'
  | 't' => 'T'
  | 'u' => 'U'
  | 'v' => 'V'
  | 'w' => 'W'
  | 'x' => 'X'
  | 'y' => 'Y'
  | 'z' => 'Z'
  | other => other

/-- str.upper() applied to a whole string. -/
def pyUpperStr (s : String) : String :=
  String.mk (s.data.map pyUpper)

/-- The SPECIAL_KEYS table of keys.py (lines 10-78): uppercase token
name to the byte sequence sent to the terminal, written here with
decimal byte values (13 = carriage return, 27 = escape, 126 = tilde,
and so on). -/
def SPECIAL_KEYS : List (String × List Nat) :=
  [("ENTER", [13]),
   ("RETURN", [13]),
   ("TAB", [9]),
   ("ESC", [27]),
   ("ESCAPE", [27]),
   ("BACKSPACE", [127]),
   ("DELETE", [27, 91, 51, 126]),
   ("SPACE", [32]),
   ("UP", [27, 91, 65]),
   ("DOWN", [27, 91, 66]),
   ("RIGHT", [27, 91, 67]),
   ("LEFT", [27, 91, 68]),
   ("HOME", [27, 91, 72]),
   ("END", [27, 91, 70]),
   ("PGUP", [27, 91, 53, 126]),
   ("PAGEUP", [27, 91, 53, 126]),
   ("PGDN", [27, 91, 54, 126]),
   ("PAGEDOWN", [27, 91, 54, 126]),
   ("INSERT", [27, 91, 50, 126]),
   ("F1", [27, 79, 80]),
   ("F2", [27, 79, 81]),
   ("F3", [27, 79, 82]),
   ("F4", [27, 79, 83]),
   ("F5", [27, 91, 49, 53, 126]),
   ("F6", [27, 91, 49, 55, 126]),
   ("F7", [27, 91, 49, 56, 126]),
   ("F8", [27, 91, 49, 57, 126]),
   ("F9", [27, 91, 50, 48, 126]),
   ("F10", [27, 91, 50, 49, 126]),
   ("F11", [27, 91, 50, 51, 126]),
   ("F12", [27, 91, 50, 52, 126]),
   ("CTRL+A", [1]),
   ("CTRL+B", [2]),
   ("CTRL+C", [3]),
   ("CTRL+D", [4]),
   ("CTRL+E", [5]),
   ("CTRL+F", [6]),
   ("CTRL+G", [7]),
   ("CTRL+H", [8]),
   ("CTRL+I", [9]),
   ("CTRL+J", [10]),
   ("CTRL+K", [11]),
   ("CTRL+L", [12]),
   ("CTRL+M", [13]),
   ("CTRL+N", [14]),
   ("CTRL+O", [15]),
   ("CTRL+P", [16]),
   ("CTRL+Q", [17]),
   ("CTRL+R", [18]),
   ("CTRL+S", [19]),
   ("CTRL+T", [20]),
   ("CTRL+U", [21]),
   ("CTRL+V", [22]),
   ("CTRL+W", [23]),
   ("CTRL+X", [24]),
   ("CTRL+Y", [25]),
   ("CTRL+Z", [26]),
   ("CTRL+[", [27]),
   ("CTRL+\\", [28]),
   ("CTRL+]", [29]),
   ("CTRL+^", [30]),
   ("CTRL+_", [31])]

/-- The body of parse_keys for one recognised brace group (lines
111-117): uppercase the captured name; a table hit contributes that
token's bytes, a miss re-emits the group verbatim including its braces,
UTF-8 encoded. -/
def tokenBytes (buf : List Char) : List Nat :=
  match SPECIAL_KEYS.lookup (String.mk (buf.map pyUpper)) with
  | some b => b
  | none => utf8Chars ('\x7b' :: buf ++ ['\x7d'])

/-- The scan of parse_keys (lines 103-125) over the input characters.
The regex of SPECIAL_KEY_PATTERN matches an opening brace, then a
maximal nonempty run of non-closing-brace characters (which may itself
contain opening braces), then the closing brace; finditer yields those
matches left to right and parse_keys copies the text between matches
verbatim.  That scan is realised here as one left-to-right pass: outside
a group, an opening brace enters group state (recording its position and
an empty capture buffer) and any other character is emitted as UTF-8;
inside a group, a closing brace either ends a match (nonempty buffer:
emit tokenBytes, record the match span) or fails the pattern (empty
buffer, two literal brace characters, exactly the regex finding no match
at either position), and any other character extends the buffer.

Arguments: current position, group state (start position and buffer
captured so far), remaining input.  Result: emitted bytes, final group
state (a group still open at end of input, whose text the Python code
emits verbatim as remaining literal text), and the spans of all
recognised brace groups as half-open position intervals. -/
def keyScan : Nat → Option (Nat × List Char) → List Char →
    List Nat × Option (Nat × List Char) × List (Nat × Nat)
  | _, st, [] => ([], st, [])
  | pos, none, c :: r =>
    if c = '\x7b' then keyScan (pos + 1) (some (pos, [])) r
    else
      (utf8Char c ++ (keyScan (pos + 1) none r).1, (keyScan (pos + 1) none r).2)
  | pos, some (b, buf), c :: r =>
    if c = '\x7d' then
      if buf = [] then
        (utf8Chars ['\x7b', '\x7d'] ++ (keyScan (pos + 1) none r).1, (keyScan (pos + 1) none r).2)
      else
        (tokenBytes buf ++ (keyScan (pos + 1) none r).1, (keyScan (pos + 1) none r).2.1,
          (b, pos + 1) :: (keyScan (pos + 1) none r).2.2)
    else keyScan (pos + 1) (some (b, buf ++ [c])) r

/-- Text still pending when the scan ends: an open group never closed by
a brace is literal input text, re-emitted unchanged (the tail copy at
lines 122-123 of keys.py). -/
def flushState : Option (Nat × List Char) → List Nat
  | none => []
  | some (_, buf) => utf8Chars ('\x7b' :: buf)

/-- parse_keys (keys.py lines 84-125): scan the whole input and append
whatever literal text remains pending at the end. -/
def parse_keys (s : String) : List Nat :=
  let x := keyScan 0 none s.data
  x.1 ++ flushState x.2.1

/-- The spans (half-open character-position intervals) of the brace
groups that SPECIAL_KEY_PATTERN matches in the input. -/
def tokenSpans (s : String) : List (Nat × Nat) :=
  (keyScan 0 none s.data).2.2

/-- The capture buffer of a scan state, forgetting the recorded start
position (which only feeds the spans, never the emitted bytes). -/
def stBuf : Option (Nat × List Char) → Option (List Char)
  | none => none
  | some (_, buf) => some buf

/-- A concrete drain environment used to instantiate the drain-loop
theorem: two readable iterations of two bytes each, then a select
timeout. -/
def readEnvW : ReadEnv :=
  { ready := fun n => decide (n < 2), readRes := fun _ => Except.ok [104, 105] }

example : parse_keys ("hello") = [104, 101, 108, 108, 111] := by decide
example : parse_keys ("\x7bENTER\x7d") = [13] := by decide
example : parse_keys ("test\x7bTAB\x7dmore\x7bENTER\x7d") =
    [116, 101, 115, 116, 9, 109, 111, 114, 101, 13] := by decide
example : parse_keys ("\x7bUP\x7d\x7bUP\x7d\x7bENTER\x7d") =
    [27, 91, 65, 27, 91, 65, 13] := by decide
example : parse_keys ("\x7bFOO\x7d") = [123, 70, 79, 79, 125] := by decide
example : parse_keys ("\x7b\x7d") = [123, 125] := by decide
example : parse_keys ("\x7bctrl+z\x7d") = [26] := by decide

/-! ## Session lifecycle theorems -/

theorem termPoll_true_iff (env : CloseEnv) :
    ∀ r k, termPoll env k r = true ↔ ∀ j, k ≤ j → j < k + r → env.probeRes j = none := by
  intro r
  induction r with
  | zero =>
    intro k
    simp only [termPoll, true_iff]
    intro j h1 h2
    omega
  | succ n ih =>
    intro k
    simp only [termPoll]
    cases h : env.probeRes k with
    | none =>
      rw [ih (k + 1)]
      constructor
      · intro hall j hj1 hj2
        rcases Nat.eq_or_lt_of_le hj1 with he | hlt
        · rw [← he]; exact h
        · exact hall j hlt (by omega)
      · intro hall j hj1 hj2
        exact hall j (by omega) (by omega)
    | some e =>
      constructor
      · intro hfalse; cases hfalse
      · intro hall
        have := hall k (Nat.le_refl k) (by omega)
        rw [h] at this
        cases this

theorem fdCloseFlag_closed (env : CloseEnv) : fdCloseFlag env false = false := rfl

theorem close_on_closed_fd (env : CloseEnv) :
    ∃ r, TUISession.close env false = Except.ok r ∧ r.fdOpen = false ∧ r.fdCloseOk = false := by
  unfold TUISession.close
  cases hp : env.probeRes 0 with
  | some e =>
    refine ⟨⟨false, false, false, false⟩, ?_, rfl, rfl⟩
    simp [is_alive, fdCloseFlag, osCloseFd]
  | none =>
    cases ht : env.termRes with
    | some e =>
      refine ⟨⟨false, false, false, false⟩, ?_, rfl, rfl⟩
      simp [is_alive, ht, fdCloseFlag, osCloseFd]
    | none =>
      cases hl : termPoll env 1 closePollBudget with
      | true =>
        refine ⟨⟨false, false, true, true⟩, ?_, rfl, rfl⟩
        simp [is_alive, ht, hl, fdCloseFlag, osCloseFd]
      | false =>
        refine ⟨⟨false, false, true, false⟩, ?_, rfl, rfl⟩
        simp [is_alive, ht, hl, fdCloseFlag, osCloseFd]

/-- C1: close() never raises — every OS error of the teardown is
swallowed, so for every environment of OS-call outcomes the result is
Except.ok; the pty handle is no longer held afterwards, and a second
close() also returns normally without releasing the handle a second
time (its os.close attempt is refused with EBADF and swallowed); and
SIGKILL is issued exactly when the process was alive at the initial
probe, SIGTERM was delivered, and all ten liveness polls (spaced 100 ms
apart) still found the process alive — so in particular SIGKILL is only
ever sent after SIGTERM plus the full ten-poll budget. -/
theorem close_teardown_spec (env env2 : CloseEnv) (fdOpen : Bool) :
    ∃ r, TUISession.close env fdOpen = Except.ok r ∧
      r.fdOpen = false ∧
      (r.sigkillSent = true ↔
        env.probeRes 0 = none ∧ env.termRes = none ∧
          ∀ k, 1 ≤ k → k ≤ closePollBudget → env.probeRes k = none) ∧
      (∃ r2, TUISession.close env2 r.fdOpen = Except.ok r2 ∧
        r2.fdOpen = false ∧ r2.fdCloseOk = false) ∧
      closePollBudget = 10 ∧ closePollIntervalMs = 100 := by
  have hsecond := close_on_closed_fd env2
  unfold TUISession.close
  cases hp : env.probeRes 0 with
  | some e =>
    refine ⟨⟨false, fdCloseFlag env fdOpen, false, false⟩, by simp [is_alive], rfl, ?_,
      hsecond, rfl, rfl⟩
    constructor
    · intro h; cases h
    · rintro ⟨h0, -, -⟩
      cases h0
  | none =>
    cases ht : env.termRes with
    | some e =>
      refine ⟨⟨false, fdCloseFlag env fdOpen, false, false⟩, by simp [is_alive, ht], rfl, ?_,
        hsecond, rfl, rfl⟩
      constructor
      · intro h; cases h
      · rintro ⟨-, h1, -⟩
        cases h1
    | none =>
      cases hl : termPoll env 1 closePollBudget with
      | true =>
        refine ⟨⟨false, fdCloseFlag env fdOpen, true, true⟩, by simp [is_alive, ht, hl], rfl, ?_,
          hsecond, rfl, rfl⟩
        rw [termPoll_true_iff] at hl
        constructor
        · intro _
          refine ⟨rfl, rfl, ?_⟩
          intro k h1 h2
          exact hl k h1 (by unfold closePollBudget at h2 ⊢; omega)
        · intro _; rfl
      | false =>
        refine ⟨⟨false, fdCloseFlag env fdOpen, true, false⟩, by simp [is_alive, ht, hl], rfl, ?_,
          hsecond, rfl, rfl⟩
        constructor
        · intro h; cases h
        · rintro ⟨-, -, hall⟩
          have : termPoll env 1 closePollBudget = true := by
            rw [termPoll_true_iff]
            intro j hj1 hj2
            exact hall j hj1 (by unfold closePollBudget at hj2 ⊢; omega)
          rw [hl] at this
          cases this

theorem readLoop_iters (env : ReadEnv) :
    ∀ r n, n ≤ (readLoop env n r).2 ∧ (readLoop env n r).2 ≤ n + r := by
  intro r
  induction r with
  | zero => intro n; exact ⟨Nat.le_refl n, Nat.le_refl n⟩
  | succ k ih =>
    intro n
    have ihn := ih (n + 1)
    simp only [readLoop]
    split
    · split
      · exact ⟨Nat.le_succ n, by show n + 1 ≤ n + (k + 1); omega⟩
      · split
        · exact ⟨Nat.le_succ n, by show n + 1 ≤ n + (k + 1); omega⟩
        · refine ⟨?_, ?_⟩
          · show n ≤ (readLoop env (n + 1) k).2
            omega
          · show (readLoop env (n + 1) k).2 ≤ n + (k + 1)
            omega
    · exact ⟨Nat.le_succ n, by show n + 1 ≤ n + (k + 1); omega⟩

theorem readLoop_len (env : ReadEnv)
    (hwf : ∀ n c, env.readRes n = Except.ok c → c.length ≤ READ_CHUNK) :
    ∀ r n, (readLoop env n r).1.length ≤ READ_CHUNK * ((readLoop env n r).2 - n) := by
  intro r
  induction r with
  | zero => intro n; show List.length [] ≤ READ_CHUNK * (n - n); simp
  | succ k ih =>
    intro n
    simp only [readLoop]
    split
    · split
      next e heq => show List.length [] ≤ READ_CHUNK * (n + 1 - n); simp
      next chunk heq =>
        split
        next hc => show List.length [] ≤ READ_CHUNK * (n + 1 - n); simp
        next hc =>
          have hlen := hwf n chunk heq
          have hit := (readLoop_iters env k (n + 1)).1
          have hrec := ih (n + 1)
          show (chunk ++ (readLoop env (n + 1) k).1).length ≤
            READ_CHUNK * ((readLoop env (n + 1) k).2 - n)
          rw [List.length_append]
          have hstep : (readLoop env (n + 1) k).2 - n =
              ((readLoop env (n + 1) k).2 - (n + 1)) + 1 := by omega
          rw [hstep, Nat.mul_succ]
          omega
    · show List.length [] ≤ READ_CHUNK * (n + 1 - n); simp

theorem readLoop_cont (env : ReadEnv) :
    ∀ r n k, n ≤ k → k + 1 < (readLoop env n r).2 →
      env.ready k = true ∧ ∃ c, env.readRes k = Except.ok c ∧ c ≠ [] := by
  intro r
  induction r with
  | zero =>
    intro n k h1 h2
    exact absurd (by simpa [readLoop] using h2) (by omega)
  | succ m ih =>
    intro n k h1 h2
    simp only [readLoop] at h2
    split at h2
    next hr =>
      split at h2
      next e heq =>
        simp at h2
        omega
      next chunk heq =>
        split at h2
        next hc =>
          simp at h2
          omega
        next hc =>
          rcases Nat.eq_or_lt_of_le h1 with he | hlt
          · rw [← he]
            exact ⟨hr, chunk, heq, hc⟩
          · exact ih (n + 1) k hlt h2
    next hr =>
      simp at h2
      omega

/-- C2: the drain loop of _read_output performs at most `maxReads`
iterations (Python default 100); given the OS contract that os.read(fd,
8192) returns at most 8192 bytes, the bytes collected are bounded by
READ_CHUNK per iteration actually performed; and the loop never
continues past an iteration on which select reported no data, the read
raised, or the read returned an empty chunk — every non-final iteration
was readable and produced a nonempty chunk.  Termination itself is
structural: the function is total for every environment, however much
output the child produces. -/
theorem read_output_bounded (env : ReadEnv) (maxReads : Nat) :
    (TUISession.read_output env maxReads).2 ≤ maxReads ∧
    ((∀ n c, env.readRes n = Except.ok c → c.length ≤ READ_CHUNK) →
      (TUISession.read_output env maxReads).1.length ≤
        READ_CHUNK * (TUISession.read_output env maxReads).2) ∧
    (∀ k, k + 1 < (TUISession.read_output env maxReads).2 →
      env.ready k = true ∧ ∃ c, env.readRes k = Except.ok c ∧ c ≠ []) := by
  refine ⟨?_, ?_, ?_⟩
  · have := (readLoop_iters env maxReads 0).2
    simpa [TUISession.read_output] using this
  · intro hwf
    have := readLoop_len env hwf maxReads 0
    simpa [TUISession.read_output] using this
  · intro k hk
    exact readLoop_cont env maxReads 0 k (Nat.zero_le k) hk

/-- Witness for C2 at a concrete environment: two readable iterations
of two bytes each, then a select timeout. -/
theorem read_output_bounded_witness :
    (TUISession.read_output readEnvW 100).2 ≤ 100 ∧
    (TUISession.read_output readEnvW 100).1.length ≤
      READ_CHUNK * (TUISession.read_output readEnvW 100).2 ∧
    (readEnvW.ready 0 = true ∧ ∃ c, readEnvW.readRes 0 = Except.ok c ∧ c ≠ []) :=
  ⟨(read_output_bounded readEnvW 100).1,
   (read_output_bounded readEnvW 100).2.1
     (by intro n c h; injection h with h2; rw [← h2]; decide),
   (read_output_bounded readEnvW 100).2.2 0 (by decide)⟩

/-- C3 counterexample: a probe that fails with a permission error
(EPERM is not ESRCH) makes is_alive return false, because the Python
handler catches every OSError — but the claim requires true for any
signal-delivery failure other than process-does-not-exist. -/
theorem is_alive_eperm_cex :
    is_alive (some OSErr.eperm) = false ∧ OSErr.eperm ≠ OSErr.esrch := by decide

/-- C3 amended: is_alive sends the zero-effect probe signal and returns
true exactly when delivery succeeds; a delivery failure with any
OS-level error — process-does-not-exist or otherwise, including
insufficient permission — yields false, since the except clause catches
OSError as a whole. -/
theorem is_alive_iff_probe_delivered (r : Option OSErr) :
    (is_alive r = true ↔ r = none) ∧ (is_alive r = false ↔ ∃ e, r = some e) := by
  cases r <;> simp [is_alive]

/-- C4 counterexample: a capture whose render step raises still
increments capture_count from 0 to 1, because the counter is mutated
before _render_image is invoked — the claim requires the counter to be
unchanged on a failed capture. -/
theorem capture_count_cex :
    (TUISession.capture false 0).2 = 1 ∧
    (TUISession.capture false 0).1 = Except.error CaptureErr.renderFailed :=
  ⟨rfl, rfl⟩

/-- C4 amended: captureCount starts at 0 and is incremented exactly
once per capture attempt — the increment happens before the
image-rendering step, so it also happens when rendering raises — and
the n-th capture attempt derives the artifact filename
capture_<n zero-padded to 4 digits>.png, which a successful capture
returns. -/
theorem capture_count_increments_per_attempt (renderOk : Bool) (c : Nat) :
    (TUISession.capture renderOk c).2 = c + 1 ∧
    (TUISession.capture true c).1 = Except.ok ("capture_" ++ pad4 (c + 1) ++ ".png") ∧
    (TUISession.capture false c).1 = Except.error CaptureErr.renderFailed ∧
    pad4 1 = "0001" ∧ pad4 2 = "0002" ∧ pad4 123 = "0123" := by
  refine ⟨rfl, rfl, rfl, ?_, ?_, ?_⟩ <;> decide

/-! ## Session registry theorems -/

theorem lookup_none_of_not_mem {β : Type} (l : List (String × β)) (k : String)
    (h : k ∉ l.map Prod.fst) : l.lookup k = none := by
  induction l with
  | nil => rfl
  | cons a t ih =>
    obtain ⟨k', v⟩ := a
    simp only [List.map_cons, List.mem_cons] at h
    push_neg at h
    have hne : (k == k') = false := by
      simp only [beq_eq_false_iff_ne, ne_eq]
      exact h.1
    simp only [List.lookup, hne]
    exact ih h.2

theorem lookup_eq_of_mem {β : Type} (l : List (String × β)) (k : String) (v : β)
    (hnd : (l.map Prod.fst).Nodup) (h : (k, v) ∈ l) : l.lookup k = some v := by
  induction l with
  | nil => cases h
  | cons a t ih =>
    obtain ⟨k', v'⟩ := a
    simp only [List.map_cons, List.nodup_cons] at hnd
    rcases List.mem_cons.mp h with heq | hmem
    · obtain ⟨h1, h2⟩ := Prod.mk.injEq .. ▸ heq
      injection heq with hk hv
      simp only [List.lookup, hk, beq_self_eq_true]
      rw [hv]
    · have hne : (k == k') = false := by
        simp only [beq_eq_false_iff_ne, ne_eq]
        intro he
        rw [he] at hmem
        exact hnd.1 (List.mem_map_of_mem Prod.fst hmem)
      simp only [List.lookup, hne]
      exact ih hnd.2 hmem

theorem popKey_not_mem (m : List (String × Bool)) (sid : String)
    (h : sid ∉ m.map Prod.fst) : popKey m sid = (none, m) := by
  induction m with
  | nil => rfl
  | cons a t ih =>
    obtain ⟨k, v⟩ := a
    simp only [List.map_cons, List.mem_cons] at h
    push_neg at h
    have hk : ¬ k = sid := fun he => h.1 he.symm
    simp only [popKey, if_neg hk, ih h.2]

theorem popKey_mem (m : List (String × Bool)) (sid : String)
    (h : sid ∈ m.map Prod.fst) : ∃ v, (popKey m sid).1 = some v := by
  induction m with
  | nil => cases h
  | cons a t ih =>
    obtain ⟨k, v⟩ := a
    by_cases hk : k = sid
    · exact ⟨v, by simp [popKey, hk]⟩
    · simp only [List.map_cons, List.mem_cons] at h
      rcases h with he | hmem
      · exact absurd he.symm hk
      · obtain ⟨w, hw⟩ := ih hmem
        exact ⟨w, by simp [popKey, hk, hw]⟩

theorem popKey_lookup_none (m : List (String × Bool)) (sid : String)
    (hnd : (m.map Prod.fst).Nodup) : ((popKey m sid).2).lookup sid = none := by
  induction m with
  | nil => rfl
  | cons a t ih =>
    obtain ⟨k, v⟩ := a
    simp only [List.map_cons, List.nodup_cons] at hnd
    by_cases hk : k = sid
    · simp only [popKey, if_pos hk]
      apply lookup_none_of_not_mem
      rw [← hk]
      exact hnd.1
    · have hne : (sid == k) = false := by
        simp only [beq_eq_false_iff_ne, ne_eq]
        exact fun he => hk he.symm
      simp only [popKey, if_neg hk, List.lookup, hne]
      exact ih hnd.2

/-- C6: destroy(id) — SessionManager.close — returns true exactly when
an entry with that id is present; afterwards a lookup of that id is
absent; on a present id the popped session's close() is invoked; and on
an absent id the map is unchanged, nothing is closed, and the result is
false rather than an error. -/
theorem manager_close_spec (m : List (String × Bool)) (sid : String)
    (hnd : (m.map Prod.fst).Nodup) :
    ((SessionManager.close m sid).1 = true ↔ sid ∈ m.map Prod.fst) ∧
    SessionManager.get (SessionManager.close m sid).2.1 sid = none ∧
    (sid ∈ m.map Prod.fst → (SessionManager.close m sid).2.2 = some sid) ∧
    (sid ∉ m.map Prod.fst →
      (SessionManager.close m sid).1 = false ∧ (SessionManager.close m sid).2.1 = m ∧
      (SessionManager.close m sid).2.2 = none) := by
  refine ⟨?_, ?_, ?_, ?_⟩
  · constructor
    · intro h
      by_contra habs
      rw [SessionManager.close, popKey_not_mem m sid habs] at h
      cases h
    · intro h
      obtain ⟨v, hv⟩ := popKey_mem m sid h
      rw [SessionManager.close]
      rcases hp : popKey m sid with ⟨o, m'⟩
      rw [hp] at hv
      simp only at hv
      rw [hv]
  · rw [SessionManager.close]
    rcases hp : popKey m sid with ⟨o, m'⟩
    have hl : m'.lookup sid = none := by
      have := popKey_lookup_none m sid hnd
      rw [hp] at this
      exact this
    cases o <;> simpa [SessionManager.get] using hl
  · intro h
    obtain ⟨v, hv⟩ := popKey_mem m sid h
    rw [SessionManager.close]
    rcases hp : popKey m sid with ⟨o, m'⟩
    rw [hp] at hv
    simp only at hv
    rw [hv]
  · intro h
    rw [SessionManager.close, popKey_not_mem m sid h]
    exact ⟨rfl, rfl, rfl⟩

/-- Witness for C6: on a concrete two-entry registry, destroying a
present id makes a subsequent lookup of it absent. -/
theorem manager_close_spec_witness :
    SessionManager.get (SessionManager.close [("a", true), ("b", false)] "a").2.1 "a" = none :=
  (manager_close_spec [("a", true), ("b", false)] "a" (by decide)).2.1

theorem close_cons_ne (m : List (String × Bool)) (k : String) (v : Bool) (sid : String)
    (hk : k ≠ sid) :
    SessionManager.close ((k, v) :: m) sid =
      ((SessionManager.close m sid).1, (k, v) :: (SessionManager.close m sid).2.1,
        (SessionManager.close m sid).2.2) := by
  rw [SessionManager.close, SessionManager.close]
  simp only [popKey, if_neg hk]
  rcases hp : popKey m sid with ⟨o, m'⟩
  cases o <;> rfl

theorem closeDead_skip (k : String) (v : Bool) :
    ∀ sids m, k ∉ sids →
      closeDead ((k, v) :: m) sids =
        ((k, v) :: (closeDead m sids).1, (closeDead m sids).2) := by
  intro sids
  induction sids with
  | nil => intro m _; rfl
  | cons sid rest ih =>
    intro m h
    simp only [List.mem_cons] at h
    push_neg at h
    rw [closeDead, close_cons_ne m k v sid h.1, closeDead]
    rw [ih (SessionManager.close m sid).2.1 h.2]

theorem deadIds_subset (m : List (String × Bool)) :
    ((m.filter fun p => !p.2).map Prod.fst) ⊆ m.map Prod.fst :=
  List.map_subset Prod.fst (List.filter_sublist _).subset

theorem closeDead_deadIds (m : List (String × Bool)) (hnd : (m.map Prod.fst).Nodup) :
    closeDead m ((m.filter fun p => !p.2).map Prod.fst) =
      (m.filter (fun p => p.2), (m.filter fun p => !p.2).map Prod.fst) := by
  induction m with
  | nil => rfl
  | cons a t ih =>
    obtain ⟨k, v⟩ := a
    simp only [List.map_cons, List.nodup_cons] at hnd
    cases v with
    | true =>
      have hfilt : ((k, true) :: t).filter (fun p => !p.2) = t.filter (fun p => !p.2) := by
        simp [List.filter]
      have hkeep : ((k, true) :: t).filter (fun p => p.2) =
          (k, true) :: t.filter (fun p => p.2) := by
        simp [List.filter]
      rw [hfilt, hkeep]
      have hnot : k ∉ (t.filter fun p => !p.2).map Prod.fst :=
        fun hin => hnd.1 (deadIds_subset t hin)
      rw [closeDead_skip k true _ t hnot, ih hnd.2]
    | false =>
      have hfilt : ((k, false) :: t).filter (fun p => !p.2) =
          (k, false) :: t.filter (fun p => !p.2) := by
        simp [List.filter]
      have hkeep : ((k, false) :: t).filter (fun p => p.2) = t.filter (fun p => p.2) := by
        simp [List.filter]
      rw [hfilt, hkeep, List.map_cons]
      rw [closeDead]
      have hclose : SessionManager.close ((k, false) :: t) k = (true, t, some k) := by
        rw [SessionManager.close]
        simp [popKey]
      rw [hclose]
      simp only
      rw [ih hnd.2]

/-- C5: sweepDead — SessionManager.cleanup_dead — destroys exactly the
tracked sessions whose liveness probe failed: each such id is removed
from the map and its session close() invoked, the return value is the
number of sessions so removed, and every session whose probe succeeded
remains in the map untouched. -/
theorem cleanup_dead_spec (m : List (String × Bool)) (hnd : (m.map Prod.fst).Nodup) :
    (SessionManager.cleanup_dead m).1 = ((m.filter fun p => !p.2).map Prod.fst).length ∧
    (SessionManager.cleanup_dead m).2.1 = m.filter (fun p => p.2) ∧
    (SessionManager.cleanup_dead m).2.2 = (m.filter fun p => !p.2).map Prod.fst := by
  have h := closeDead_deadIds m hnd
  refine ⟨rfl, ?_, ?_⟩
  · show (closeDead m ((m.filter fun p => !p.2).map Prod.fst)).1 = _
    rw [h]
  · show (closeDead m ((m.filter fun p => !p.2).map Prod.fst)).2 = _
    rw [h]

/-- Witness for C5: on a concrete registry with two live and two dead
sessions, the sweep keeps exactly the live entries, closes exactly the
dead ids, and returns their number. -/
theorem cleanup_dead_spec_witness :
    (SessionManager.cleanup_dead [("a", true), ("b", false), ("c", true), ("d", false)]).1 =
      (([("a", true), ("b", false), ("c", true), ("d", false)].filter
        fun p => !p.2).map Prod.fst).length ∧
    (SessionManager.cleanup_dead [("a", true), ("b", false), ("c", true), ("d", false)]).2.1 =
      [("a", true), ("b", false), ("c", true), ("d", false)].filter (fun p => p.2) ∧
    (SessionManager.cleanup_dead [("a", true), ("b", false), ("c", true), ("d", false)]).2.2 =
      ([("a", true), ("b", false), ("c", true), ("d", false)].filter fun p => !p.2).map Prod.fst :=
  cleanup_dead_spec [("a", true), ("b", false), ("c", true), ("d", false)] (by decide)

/-! ## Key encoder: scanner lemmas -/

theorem string_data_append (s t : String) : (s ++ t).data = s.data ++ t.data := by
  cases s; cases t; rfl

theorem string_length_data (s : String) : s.length = s.data.length := rfl

theorem utf8Chars_append (a b : List Char) :
    utf8Chars (a ++ b) = utf8Chars a ++ utf8Chars b := by
  induction a with
  | nil => rfl
  | cons c r ih =>
    show utf8Char c ++ utf8Chars (r ++ b) = utf8Char c ++ utf8Chars r ++ utf8Chars b
    rw [ih, List.append_assoc]

theorem keyScan_nil (p : Nat) (st : Option (Nat × List Char)) :
    keyScan p st [] = ([], st, []) := by
  cases st with
  | none => rfl
  | some z => obtain ⟨b, buf⟩ := z; rfl

theorem flushState_congr (st st' : Option (Nat × List Char)) (h : stBuf st = stBuf st') :
    flushState st = flushState st' := by
  cases st with
  | none =>
    cases st' with
    | none => rfl
    | some z => obtain ⟨b, buf⟩ := z; simp [stBuf] at h
  | some z =>
    obtain ⟨b, buf⟩ := z
    cases st' with
    | none => simp [stBuf] at h
    | some z' =>
      obtain ⟨b', buf'⟩ := z'
      simp only [stBuf, Option.some.injEq] at h
      simp [flushState, h]

set_option maxHeartbeats 1000000 in
theorem specialKeys_nodup : (SPECIAL_KEYS.map Prod.fst).Nodup := by decide

set_option maxHeartbeats 1000000 in
theorem specialKeys_names_ok : ∀ p ∈ SPECIAL_KEYS, p.1.data ≠ [] ∧ '\x7d' ∉ p.1.data := by
  decide

theorem keyScan_append (a : List Char) :
    ∀ (b : List Char) (pos : Nat) (st : Option (Nat × List Char)),
      keyScan pos st (a ++ b) =
        ((keyScan pos st a).1 ++
            (keyScan (pos + a.length) (keyScan pos st a).2.1 b).1,
          (keyScan (pos + a.length) (keyScan pos st a).2.1 b).2.1,
          (keyScan pos st a).2.2 ++
            (keyScan (pos + a.length) (keyScan pos st a).2.1 b).2.2) := by
  induction a with
  | nil => intro b pos st; simp [keyScan]
  | cons c r ih =>
    intro b pos st
    have harith : pos + 1 + r.length = pos + (r.length + 1) := by omega
    rw [List.cons_append]
    cases st with
    | none =>
      by_cases hc : c = '\x7b'
      · simp only [keyScan, if_pos hc]
        rw [ih b (pos + 1) (some (pos, []))]
        simp only [List.length_cons, harith]
      · simp only [keyScan, if_neg hc]
        rw [ih b (pos + 1) none]
        simp only [List.length_cons, harith, List.append_assoc]
    | some z =>
      obtain ⟨bp, buf⟩ := z
      by_cases hc : c = '\x7d'
      · by_cases hb : buf = []
        · simp only [keyScan, if_pos hc, if_pos hb]
          rw [ih b (pos + 1) none]
          simp only [List.length_cons, harith, List.append_assoc]
        · simp only [keyScan, if_pos hc, if_neg hb]
          rw [ih b (pos + 1) none]
          simp only [List.length_cons, harith, List.append_assoc, List.cons_append]
      · simp only [keyScan, if_neg hc]
        rw [ih b (pos + 1) (some (bp, buf ++ [c]))]
        simp only [List.length_cons, harith]

theorem keyScan_irrel (s : List Char) :
    ∀ (p q : Nat) (st st' : Option (Nat × List Char)), stBuf st = stBuf st' →
      (keyScan p st s).1 = (keyScan q st' s).1 ∧
      stBuf (keyScan p st s).2.1 = stBuf (keyScan q st' s).2.1 := by
  induction s with
  | nil =>
    intro p q st st' h
    rw [keyScan_nil p st, keyScan_nil q st']
    exact ⟨rfl, h⟩
  | cons c r ih =>
    intro p q st st' h
    cases st with
    | none =>
      cases st' with
      | none =>
        by_cases hc : c = '\x7b'
        · simp only [keyScan, if_pos hc]
          exact ih (p + 1) (q + 1) (some (p, [])) (some (q, [])) rfl
        · simp only [keyScan, if_neg hc]
          obtain ⟨h1, h2⟩ := ih (p + 1) (q + 1) none none rfl
          exact ⟨by rw [h1], h2⟩
      | some z => obtain ⟨b', buf'⟩ := z; simp [stBuf] at h
    | some z =>
      obtain ⟨b, buf⟩ := z
      cases st' with
      | none => simp [stBuf] at h
      | some z' =>
        obtain ⟨b', buf'⟩ := z'
        simp only [stBuf, Option.some.injEq] at h
        subst h
        by_cases hc : c = '\x7d'
        · by_cases hb : buf = []
          · simp only [keyScan, if_pos hc, if_pos hb]
            obtain ⟨h1, h2⟩ := ih (p + 1) (q + 1) none none rfl
            exact ⟨by rw [h1], h2⟩
          · simp only [keyScan, if_pos hc, if_neg hb]
            obtain ⟨h1, h2⟩ := ih (p + 1) (q + 1) none none rfl
            exact ⟨by rw [h1], h2⟩
        · simp only [keyScan, if_neg hc]
          exact ih (p + 1) (q + 1) (some (b, buf ++ [c])) (some (b', buf ++ [c])) rfl

theorem keyScan_inBrace (a : List Char) :
    ∀ (s : List Char) (p b : Nat) (buf : List Char), '\x7d' ∉ a →
      keyScan p (some (b, buf)) (a ++ s) =
        keyScan (p + a.length) (some (b, buf ++ a)) s := by
  induction a with
  | nil => intro s p b buf _; simp
  | cons c r ih =>
    intro s p b buf h
    simp only [List.mem_cons] at h
    push_neg at h
    have hc : ¬ c = '\x7d' := fun he => h.1 he.symm
    rw [List.cons_append]
    simp only [keyScan, if_neg hc]
    rw [ih s (p + 1) b (buf ++ [c]) h.2]
    have harith : p + 1 + r.length = p + (r.length + 1) := by omega
    simp only [List.length_cons, harith, List.append_assoc, List.singleton_append]

theorem keyScan_inBrace_all (s : List Char) (p b : Nat) (buf : List Char)
    (h : '\x7d' ∉ s) :
    keyScan p (some (b, buf)) s = ([], some (b, buf ++ s), []) := by
  have h0 := keyScan_inBrace s [] p b buf h
  rw [List.append_nil] at h0
  rw [h0]
  rfl

theorem keyScan_noClose (s : List Char) :
    ∀ (p : Nat) (st : Option (Nat × List Char)), '\x7d' ∉ s →
      (keyScan p st s).2.2 = [] ∧
      (keyScan p st s).1 ++ flushState (keyScan p st s).2.1 =
        flushState st ++ utf8Chars s := by
  induction s with
  | nil =>
    intro p st _
    rw [keyScan_nil]
    exact ⟨rfl, by simp [utf8Chars]⟩
  | cons c r ih =>
    intro p st h
    simp only [List.mem_cons] at h
    push_neg at h
    obtain ⟨hc0, hr⟩ := h
    cases st with
    | none =>
      by_cases hb : c = '\x7b'
      · simp only [keyScan, if_pos hb]
        rw [keyScan_inBrace_all r (p + 1) p [] hr]
        subst hb
        simp [flushState, utf8Chars]
      · simp only [keyScan, if_neg hb]
        obtain ⟨h1, h2⟩ := ih (p + 1) none hr
        refine ⟨h1, ?_⟩
        rw [List.append_assoc, h2]
        simp [flushState, utf8Chars]
    | some z =>
      obtain ⟨b, buf⟩ := z
      have hc : ¬ c = '\x7d' := fun he => hc0 he.symm
      simp only [keyScan, if_neg hc]
      obtain ⟨h1, h2⟩ := ih (p + 1) (some (b, buf ++ [c])) hr
      refine ⟨h1, ?_⟩
      rw [h2]
      simp only [flushState]
      rw [show ('\x7b' :: (buf ++ [c])) = ('\x7b' :: buf) ++ [c] by simp]
      rw [utf8Chars_append]
      simp [utf8Chars, List.append_assoc]

theorem keyScan_spansEmpty (s : List Char) :
    ∀ (p : Nat) (st : Option (Nat × List Char)),
      (keyScan p st s).2.2 = [] →
      (keyScan p st s).1 ++ flushState (keyScan p st s).2.1 =
        flushState st ++ utf8Chars s := by
  induction s with
  | nil =>
    intro p st _
    rw [keyScan_nil]
    simp [utf8Chars]
  | cons c r ih =>
    intro p st hsp
    cases st with
    | none =>
      by_cases hb : c = '\x7b'
      · simp only [keyScan, if_pos hb] at hsp ⊢
        rw [ih (p + 1) (some (p, [])) hsp]
        subst hb
        simp [flushState, utf8Chars]
      · simp only [keyScan, if_neg hb] at hsp ⊢
        rw [List.append_assoc, ih (p + 1) none hsp]
        simp [flushState, utf8Chars]
    | some z =>
      obtain ⟨b, buf⟩ := z
      by_cases hc : c = '\x7d'
      · by_cases hbuf : buf = []
        · simp only [keyScan, if_pos hc, if_pos hbuf] at hsp ⊢
          rw [List.append_assoc, ih (p + 1) none hsp]
          subst hc hbuf
          simp [flushState, utf8Chars]
        · simp only [keyScan, if_pos hc, if_neg hbuf] at hsp
          cases hsp
      · simp only [keyScan, if_neg hc] at hsp ⊢
        rw [ih (p + 1) (some (b, buf ++ [c])) hsp]
        simp only [flushState]
        rw [show ('\x7b' :: (buf ++ [c])) = ('\x7b' :: buf) ++ [c] by simp]
        rw [utf8Chars_append]
        simp [utf8Chars, List.append_assoc]

theorem keyScan_noOpen (s : List Char) :
    ∀ p : Nat, '\x7b' ∉ s → keyScan p none s = (utf8Chars s, none, []) := by
  induction s with
  | nil => intro p _; rfl
  | cons c r ih =>
    intro p h
    simp only [List.mem_cons] at h
    push_neg at h
    have hc : ¬ c = '\x7b' := fun he => h.1 he.symm
    simp only [keyScan, if_neg hc]
    rw [ih (p + 1) h.2]
    simp [utf8Chars]

theorem keyScan_token (name rest : List Char) (p : Nat)
    (hne : name ≠ []) (hnb : '\x7d' ∉ name) :
    keyScan p none ('\x7b' :: (name ++ '\x7d' :: rest)) =
      (tokenBytes name ++ (keyScan (p + name.length + 2) none rest).1,
        (keyScan (p + name.length + 2) none rest).2.1,
        (p, p + name.length + 2) ::
          (keyScan (p + name.length + 2) none rest).2.2) := by
  have h0 : keyScan p none ('\x7b' :: (name ++ '\x7d' :: rest)) =
      keyScan (p + 1) (some (p, [])) (name ++ '\x7d' :: rest) := by
    simp [keyScan]
  rw [h0, keyScan_inBrace name ('\x7d' :: rest) (p + 1) p [] hnb]
  simp only [List.nil_append]
  have harith : p + 1 + name.length + 1 = p + name.length + 2 := by omega
  simp only [keyScan, if_neg hne, harith]
  exact if_pos (by trivial)

theorem keyScan_state_pos (s : List Char) :
    ∀ (p : Nat) (st : Option (Nat × List Char)),
      (∀ b0 buf0, st = some (b0, buf0) → b0 < p) →
      ∀ b buf, (keyScan p st s).2.1 = some (b, buf) → b < p + s.length := by
  induction s with
  | nil =>
    intro p st hst b buf hfin
    rw [keyScan_nil] at hfin
    have := hst b buf hfin
    omega
  | cons c r ih =>
    intro p st hst b buf hfin
    cases st with
    | none =>
      by_cases hb : c = '\x7b'
      · simp only [keyScan, if_pos hb] at hfin
        have := ih (p + 1) (some (p, []))
          (by intro b0 buf0 he; injection he with he2; injection he2 with h1 h2; omega)
          b buf hfin
        simp only [List.length_cons]
        omega
      · simp only [keyScan, if_neg hb] at hfin
        have := ih (p + 1) none (by intro b0 buf0 he; cases he) b buf hfin
        simp only [List.length_cons]
        omega
    | some z =>
      obtain ⟨b1, buf1⟩ := z
      have hb1 : b1 < p := hst b1 buf1 rfl
      by_cases hc : c = '\x7d'
      · by_cases hbuf : buf1 = []
        · simp only [keyScan, if_pos hc, if_pos hbuf] at hfin
          have := ih (p + 1) none (by intro b0 buf0 he; cases he) b buf hfin
          simp only [List.length_cons]
          omega
        · simp only [keyScan, if_pos hc, if_neg hbuf] at hfin
          have := ih (p + 1) none (by intro b0 buf0 he; cases he) b buf hfin
          simp only [List.length_cons]
          omega
      · simp only [keyScan, if_neg hc] at hfin
        have := ih (p + 1) (some (b1, buf1 ++ [c]))
          (by intro b0 buf0 he; injection he with he2; injection he2 with h1 h2; omega)
          b buf hfin
        simp only [List.length_cons]
        omega

theorem mem_split_first {c : Char} :
    ∀ {l : List Char}, c ∈ l → ∃ d r, l = d ++ c :: r ∧ c ∉ d := by
  intro l h
  induction l with
  | nil => cases h
  | cons a t ih =>
    by_cases ha : a = c
    · exact ⟨[], t, by simp [ha], by simp⟩
    · rcases List.mem_cons.mp h with he | hm
      · exact absurd he.symm ha
      · obtain ⟨d, r, hdr, hnd⟩ := ih hm
        refine ⟨a :: d, r, by rw [List.cons_append, hdr], ?_⟩
        intro hmem
        rcases List.mem_cons.mp hmem with he | hin
        · exact ha he.symm
        · exact hnd hin

/-! ## Key encoder: claim theorems -/

theorem parse_keys_def (s : String) :
    parse_keys s = (keyScan 0 none s.data).1 ++ flushState (keyScan 0 none s.data).2.1 := rfl

/-- C7: for every token name in the SPECIAL_KEYS table and every casing
of that name (any string whose character-wise uppercasing equals the
name), encoding the brace-wrapped token yields exactly that token's
byte sequence. -/
theorem parse_keys_token (name : String) (bytes : List Nat) (s : String)
    (hmem : (name, bytes) ∈ SPECIAL_KEYS)
    (hup : s.data.map pyUpper = name.data) :
    parse_keys ("\x7b" ++ s ++ "\x7d") = bytes := by
  have hfacts := specialKeys_names_ok (name, bytes) hmem
  have hne : s.data ≠ [] := by
    intro h0
    rw [h0] at hup
    exact hfacts.1 hup.symm
  have hnb : '\x7d' ∉ s.data := by
    intro h0
    have hmm : pyUpper '\x7d' ∈ s.data.map pyUpper := List.mem_map_of_mem pyUpper h0
    rw [hup] at hmm
    exact hfacts.2 hmm
  have hdata : ("\x7b" ++ s ++ "\x7d").data = '\x7b' :: (s.data ++ '\x7d' :: []) := by
    rw [string_data_append, string_data_append]
    simp
  rw [parse_keys_def, hdata, keyScan_token s.data [] 0 hne hnb, keyScan_nil]
  have hkey : String.mk (List.map pyUpper s.data) = name := by rw [hup]
  unfold tokenBytes
  rw [hkey, lookup_eq_of_mem SPECIAL_KEYS name bytes specialKeys_nodup hmem]
  simp [flushState]

/-- Witness for C7: the lowercase casing of the ENTER token encodes to
the carriage-return byte. -/
theorem parse_keys_token_witness :
    ("ENTER", [13]) ∈ SPECIAL_KEYS ∧ parse_keys ("\x7b" ++ "enter" ++ "\x7d") = [13] :=
  ⟨by decide, parse_keys_token "ENTER" [13] "enter" (by decide) (by decide)⟩

/-- C8: a brace group whose uppercased name is not in the table is
re-emitted verbatim, braces included, as UTF-8 bytes, and literal text
around it is emitted unchanged — the group is neither dropped nor an
error. -/
theorem parse_keys_passthrough (s a c : String)
    (hne : s.data ≠ []) (hnb : '\x7d' ∉ s.data)
    (hmiss : SPECIAL_KEYS.lookup (pyUpperStr s) = none)
    (ha : '\x7b' ∉ a.data) (hc : '\x7b' ∉ c.data) :
    parse_keys (a ++ "\x7b" ++ s ++ "\x7d" ++ c) =
      utf8Str a ++ utf8Str ("\x7b" ++ s ++ "\x7d") ++ utf8Str c := by
  have hdata : (a ++ "\x7b" ++ s ++ "\x7d" ++ c).data =
      a.data ++ ('\x7b' :: (s.data ++ '\x7d' :: c.data)) := by
    rw [string_data_append, string_data_append, string_data_append, string_data_append]
    simp
  rw [parse_keys_def, hdata, keyScan_append a.data _ 0 none, keyScan_noOpen a.data 0 ha]
  simp only [Nat.zero_add]
  rw [keyScan_token s.data c.data a.data.length hne hnb]
  rw [keyScan_noOpen c.data _ hc]
  have htok : tokenBytes s.data = utf8Str ("\x7b" ++ s ++ "\x7d") := by
    unfold tokenBytes
    rw [show String.mk (List.map pyUpper s.data) = pyUpperStr s from rfl, hmiss]
    have : ("\x7b" ++ s ++ "\x7d").data = '\x7b' :: (s.data ++ '\x7d' :: []) := by
      rw [string_data_append, string_data_append]
      simp
    rw [utf8Str, this]
    rfl
  rw [htok]
  simp [flushState, utf8Str, List.append_assoc]

/-- Witness for C8: the unknown token FOO between literal text passes
through byte-for-byte. -/
theorem parse_keys_passthrough_witness :
    parse_keys ("x" ++ "\x7b" ++ "FOO" ++ "\x7d" ++ "y") =
      utf8Str ("x") ++ utf8Str ("\x7b" ++ "FOO" ++ "\x7d") ++ utf8Str ("y") :=
  parse_keys_passthrough "FOO" "x" "y" (by decide) (by decide) (by decide) (by decide)
    (by decide)

/-- C9: the encoding is concatenation-compatible: whenever no brace
group recognised in s1 ++ s2 spans the boundary between the two parts,
encoding the concatenation equals the concatenation of the encodings;
the empty string encodes to empty bytes (the identity of that
concatenation), and an input in which the pattern finds no group at all
encodes to its UTF-8 bytes unchanged. -/
theorem parse_keys_concat :
    (∀ s1 s2 : String,
      (∀ pr ∈ tokenSpans (s1 ++ s2), pr.2 ≤ s1.length ∨ s1.length ≤ pr.1) →
      parse_keys (s1 ++ s2) = parse_keys s1 ++ parse_keys s2) ∧
    parse_keys ("") = [] ∧
    (∀ s : String, tokenSpans s = [] → parse_keys s = utf8Str s) := by
  refine ⟨?_, rfl, ?_⟩
  · intro s1 s2 hns
    unfold tokenSpans at hns
    simp only [string_length_data] at hns
    have hdata : (s1 ++ s2).data = s1.data ++ s2.data := string_data_append s1 s2
    have happ := keyScan_append s1.data s2.data 0 none
    rw [hdata] at hns
    rw [happ] at hns
    simp only [Nat.zero_add] at hns
    rw [parse_keys_def (s1 ++ s2), parse_keys_def s1, parse_keys_def s2, hdata, happ]
    simp only [Nat.zero_add]
    cases hst : (keyScan 0 none s1.data).2.1 with
    | none =>
      obtain ⟨ho, hbf⟩ := keyScan_irrel s2.data s1.data.length 0 none none rfl
      rw [ho, flushState_congr _ _ hbf]
      simp [flushState, List.append_assoc]
    | some z =>
      obtain ⟨b, buf⟩ := z
      have hb : b < s1.data.length := by
        have := keyScan_state_pos s1.data 0 none (by intro b0 buf0 he; cases he) b buf hst
        omega
      rw [hst] at hns
      by_cases hcl : '\x7d' ∈ s2.data
      · obtain ⟨d, r, hdr, hd⟩ := mem_split_first hcl
        rw [hdr] at hns ⊢
        rw [keyScan_inBrace d ('\x7d' :: r) s1.data.length b buf hd] at hns ⊢
        by_cases hbd : buf ++ d = []
        · obtain ⟨hbuf, hdnil⟩ := List.append_eq_nil.mp hbd
          subst hbuf hdnil
          simp only [List.length_nil, Nat.add_zero, List.append_nil, List.nil_append]
            at hns ⊢
          have hstep : keyScan s1.data.length (some (b, ([] : List Char))) ('\x7d' :: r) =
              (utf8Chars ['\x7b', '\x7d'] ++ (keyScan (s1.data.length + 1) none r).1,
                (keyScan (s1.data.length + 1) none r).2) := by
            simp [keyScan]
          have hstep2 : keyScan 0 none ('\x7d' :: r) =
              (utf8Char '\x7d' ++ (keyScan 1 none r).1, (keyScan 1 none r).2) := by
            simp [keyScan]
          rw [hstep, hstep2]
          have hcomb : (keyScan (s1.data.length + 1) none r).1 ++
                flushState (keyScan (s1.data.length + 1) none r).2.1 =
              (keyScan 1 none r).1 ++ flushState (keyScan 1 none r).2.1 := by
            obtain ⟨ho, hbf⟩ := keyScan_irrel r (s1.data.length + 1) 1 none none rfl
            rw [ho, flushState_congr _ _ hbf]
          show (keyScan 0 none s1.data).1 ++
              (utf8Chars ['\x7b', '\x7d'] ++ (keyScan (s1.data.length + 1) none r).1) ++
              flushState (keyScan (s1.data.length + 1) none r).2.1 =
            (keyScan 0 none s1.data).1 ++ flushState (some (b, ([] : List Char))) ++
              ((utf8Char '\x7d' ++ (keyScan 1 none r).1) ++ flushState (keyScan 1 none r).2.1)
          simp only [List.append_assoc]
          rw [hcomb]
          simp [flushState, utf8Chars]
        · exfalso
          have hstep : keyScan (s1.data.length + d.length) (some (b, buf ++ d)) ('\x7d' :: r) =
              (tokenBytes (buf ++ d) ++
                  (keyScan (s1.data.length + d.length + 1) none r).1,
                (keyScan (s1.data.length + d.length + 1) none r).2.1,
                (b, s1.data.length + d.length + 1) ::
                  (keyScan (s1.data.length + d.length + 1) none r).2.2) := by
            simp [keyScan, hbd]
          rw [hstep] at hns
          have hsp := hns (b, s1.data.length + d.length + 1) (by simp)
          rcases hsp with h1 | h2
          · omega
          · omega
      · rw [keyScan_inBrace_all s2.data s1.data.length b buf hcl]
        obtain ⟨hsp2, hlit0⟩ := keyScan_noClose s2.data 0 none hcl
        have hlit : (keyScan 0 none s2.data).1 ++ flushState (keyScan 0 none s2.data).2.1 =
            utf8Chars s2.data := by
          rw [hlit0]
          simp [flushState]
        rw [hlit]
        simp only [flushState]
        rw [show ('\x7b' :: (buf ++ s2.data)) = ('\x7b' :: buf) ++ s2.data from rfl]
        rw [utf8Chars_append]
        simp [List.append_assoc]
  · intro s hsp
    unfold tokenSpans at hsp
    have h2 : (keyScan 0 none s.data).1 ++ flushState (keyScan 0 none s.data).2.1 =
        utf8Chars s.data := by
      rw [keyScan_spansEmpty s.data 0 none hsp]
      simp [flushState]
    rw [parse_keys_def, h2, utf8Str]

/-- Witness for C9: a concrete split in which each brace group lies
entirely on one side of the boundary. -/
theorem parse_keys_concat_witness :
    (∀ pr ∈ tokenSpans (("ab\x7bENTER\x7d" : String) ++ "\x7bTAB\x7dcd"),
      pr.2 ≤ ("ab\x7bENTER\x7d" : String).length ∨
        ("ab\x7bENTER\x7d" : String).length ≤ pr.1) ∧
    parse_keys (("ab\x7bENTER\x7d" : String) ++ "\x7bTAB\x7dcd") =
      parse_keys ("ab\x7bENTER\x7d") ++ parse_keys ("\x7bTAB\x7dcd") :=
  ⟨by decide, parse_keys_concat.1 "ab\x7bENTER\x7d" "\x7bTAB\x7dcd" (by decide)⟩

/-- C10: the encoder accepts every input: the pattern requires a
nonempty group name, so the two-character input of an opening brace
directly followed by a closing brace matches nothing and both braces
are emitted literally; and an opening brace that is never closed is
emitted as literal UTF-8 text together with everything after it.  The
model is a total function, so no input raises. -/
theorem parse_keys_never_fails (s : String) (h : '\x7d' ∉ s.data) :
    parse_keys ("\x7b\x7d") = [123, 125] ∧
    parse_keys ("\x7b" ++ s) = utf8Str ("\x7b" ++ s) := by
  refine ⟨by decide, ?_⟩
  have hdata : ("\x7b" ++ s).data = '\x7b' :: s.data := by
    rw [string_data_append]
    rfl
  rw [parse_keys_def, hdata]
  have h0 : keyScan 0 none ('\x7b' :: s.data) = keyScan 1 (some (0, [])) s.data := by
    simp [keyScan]
  rw [h0, keyScan_inBrace_all s.data 1 0 [] h]
  simp [flushState, utf8Str, utf8Chars]

/-- Witness for C10: the unclosed input of a brace followed by ENTER is
emitted as its literal UTF-8 bytes. -/
theorem parse_keys_never_fails_witness :
    parse_keys ("\x7b\x7d") = [123, 125] ∧
    parse_keys ("\x7b" ++ "ENTER") = utf8Str ("\x7b" ++ "ENTER") :=
  parse_keys_never_fails "ENTER" (by decide)
